import Mathlib

/-!
Verification development for the redipy symbolic sequence builder
(src/redipy/symbolic/seq.py) and the in-memory builtin-function runtime
(src/redipy/memory/gfun.py).

The builder is embedded with explicit state passing: a `Ctx` value models
one `FnContext` (the script scope) together with the identity of every
`Seq`/`Sequence` object created in that scope.  Python object identity of
sequences is modelled by an index (`sid`) into `Ctx.seqs`; index 0 is the
scope's own sequence (`FnContext` passes itself as its context sequence).
All mutating methods of the source become functions `Ctx -> ... -> Ctx`.

The expression compiler (redipy.symbolic.expr / redipy.graph.expr) is an
external collaborator of the modelled core: an expression is represented
directly by its compiled IR node `ExprObj`, with the reference shapes
produced inside seq.py (index and variable references) as constructors and
an abstract constructor for every other expression kind.
-/

set_option autoImplicit false

namespace Redist

/-- Compiled expression IR node.  The expression compiler is out of scope
(the source treats `Expr.compile()` as opaque), so an expression is its
compiled node: `indexRef`/`varRef` are the shapes built in seq.py
(`IndexObj`, `VarObj`); `ext` stands for any node produced by the external
expression compiler. -/
inductive ExprObj where
  | indexRef (name : String)
  | varRef (name : String)
  | ext (tag : Nat)
  deriving Repr, DecidableEq

/-- Python exception kinds raised by the modelled code: `ValueError`
(recoverable input problem) and `RuntimeError` (fatal API misuse). -/
inductive PyErr where
  | valueError (msg : String)
  | runtimeError (msg : String)
  deriving Repr, DecidableEq

/-- One entry of a sequence's statement list (`Sequence._seq`).  Each entry
is a `Compilable`: either a plain statement thunk (the `CmdHelper` cases of
the source) or a control-flow node.  Control nodes hold the ids of their
child sequences; declare entries are the thunks registered by
`add_arg`/`add_key`/`add_local` (the exact declare node shape lives in the
external `redipy.symbolic.core`, modelled from the spec: "append a
declare-statement to the scope's sequence"). -/
inductive Item where
  | stmt (e : ExprObj)
  | declareArg (name : String) (index : Nat)
  | declareKey (name : String) (index : Nat)
  | declareLocal (index : Nat) (init : ExprObj)
  | ret (value : Option ExprObj)
  | branch (condition : ExprObj) (succId : Nat) (failId : Nat)
  | forLoop (array : ExprObj) (loopIx : Nat) (bodyId : Nat)
  | whileLoop (condition : ExprObj) (bodyId : Nat)
  deriving Repr, DecidableEq

mutual
/-- Compiled command IR node (`CommandObj` of redipy.graph.cmd): the
result of `Compilable.compile()` for each statement kind. -/
inductive CommandObj where
  | stmt (e : ExprObj)
  | declareArg (name : String) (index : Nat)
  | declareKey (name : String) (index : Nat)
  | declareLocal (index : Nat) (init : ExprObj)
  | ret (value : Option ExprObj)
  | branch (condition : ExprObj) (then_ : SequenceObj) (else_ : SequenceObj)
  | forC (array : ExprObj) (index : ExprObj) (value : ExprObj)
      (body : SequenceObj)
  | whileC (condition : ExprObj) (body : SequenceObj)

/-- Compiled sequence IR node (`SequenceObj` of redipy.graph.seq):
`Seq.compile()` yields a "seq" node, `FnContext.compile()` a "script" node
that also carries the argument and key name lists. -/
inductive SequenceObj where
  | seq (cmds : List CommandObj)
  | script (cmds : List CommandObj) (argv : List String) (keyv : List String)
end

/-- The term passed to `Sequence.add`: a `Compilable` or a bare expression
(`Compilable | Expr` in the source). -/
inductive Term where
  | comp (it : Item)
  | expr (e : ExprObj)
  deriving Repr, DecidableEq

/-- An `IndexVariable` of a for loop: only state is the index assigned by
`set_index` (the shared loop id). -/
structure IndexVariable where
  index : Nat
  deriving Repr, DecidableEq

/-- A `ValueVariable` of a for loop. -/
structure ValueVariable where
  index : Nat
  deriving Repr, DecidableEq

/-- `IndexVariable.get_declare_rhs`: raises `RuntimeError("must be used in
for loop")` unconditionally. -/
def IndexVariable.get_declare_rhs (_ : IndexVariable) : Except PyErr ExprObj :=
  .error (.runtimeError "must be used in for loop")

/-- `IndexVariable.get_index_ref`: the `IndexObj` reference named by the
role marker "ix" and the loop id. -/
def IndexVariable.get_index_ref (v : IndexVariable) : ExprObj :=
  .indexRef ("ix_" ++ toString v.index)

/-- `IndexVariable.get_ref` forwards to `get_index_ref`. -/
def IndexVariable.get_ref (v : IndexVariable) : ExprObj :=
  v.get_index_ref

/-- `ValueVariable.get_declare_rhs`: raises `RuntimeError("must be used in
for loop")` unconditionally. -/
def ValueVariable.get_declare_rhs (_ : ValueVariable) : Except PyErr ExprObj :=
  .error (.runtimeError "must be used in for loop")

/-- `ValueVariable.get_var_ref`: the `VarObj` reference named by the role
marker "val" and the loop id. -/
def ValueVariable.get_var_ref (v : ValueVariable) : ExprObj :=
  .varRef ("val_" ++ toString v.index)

/-- `ValueVariable.get_ref` forwards to `get_var_ref`. -/
def ValueVariable.get_ref (v : ValueVariable) : ExprObj :=
  v.get_var_ref

/-- The state of one script scope (`FnContext`) together with every
sequence object created in it.  `seqs` holds each sequence's statement
list (`Sequence._seq`); index 0 is the scope's own sequence.  `args` and
`keys` record `(name, assigned index)` in declaration order
(`FnContext._args` / `_keys`, where the stored handle carries the index
given to `set_index`); `anames`/`knames` are the declared-name sets;
`nlocals` is the number of locals declared (`len(self._locals)`); `loops`
is the loop-id counter (`FnContext._loops`). -/
structure Ctx where
  seqs : List (List Item)
  args : List (String × Nat)
  keys : List (String × Nat)
  anames : List String
  knames : List String
  nlocals : Nat
  loops : Nat
  deriving Repr, DecidableEq

/-- `FnContext.__init__`: a fresh scope whose only sequence (id 0, the
scope itself) is empty, with no declarations and loop counter 0. -/
def freshCtx : Ctx :=
  { seqs := [[]], args := [], keys := [], anames := [], knames := []
    nlocals := 0, loops := 0 }

/-- Append one item to the statement list of the sequence with id `sid`
(the `self._seq.append(...)` of the source); other sequences untouched.
Out-of-range ids leave the state unchanged (no such sequence object
exists). -/
def appendAt : List (List Item) → Nat → Item → List (List Item)
  | [], _, _ => []
  | s :: rest, 0, it => (s ++ [it]) :: rest
  | s :: rest, n + 1, it => s :: appendAt rest n it

/-- Statement-list append lifted to the scope state. -/
def appendItem (c : Ctx) (sid : Nat) (it : Item) : Ctx :=
  { c with seqs := appendAt c.seqs sid it }

/-- The item a term turns into when added: `Sequence.add` appends a
`Compilable` as is and wraps a bare expression into a "stmt" node thunk. -/
def Term.toItem : Term → Item
  | .comp it => it
  | .expr e => .stmt e

/-- `Sequence.add`: append a statement to sequence `sid`, wrapping a bare
expression into a `StmtObj` ("stmt" node over the compiled expression). -/
def Sequence.add (c : Ctx) (sid : Nat) (t : Term) : Ctx :=
  match t with
  | .comp it => appendItem c sid it
  | .expr e => appendItem c sid (.stmt e)

/-- `Sequence.is_empty`. -/
def Sequence.is_empty (c : Ctx) (sid : Nat) : Bool :=
  (c.seqs.getD sid []).isEmpty

/-- `FnContext.add_arg`: raise `ValueError` on a duplicate argument name;
otherwise assign the next argument index, record the name, append the
declare statement to the scope's sequence (id 0) and return the handle's
data (name and index). -/
def FnContext.add_arg (c : Ctx) (name : String) :
    Ctx × Except PyErr (String × Nat) :=
  if name ∈ c.anames then
    (c, .error (.valueError ("ambiguous arg name: " ++ name)))
  else
    let ix := c.args.length
    let c1 := { c with args := c.args ++ [(name, ix)],
                       anames := name :: c.anames }
    (appendItem c1 0 (.declareArg name ix), .ok (name, ix))

/-- `FnContext.add_key`: raise `ValueError` on a duplicate key name;
otherwise assign the next key index, record the name, append the declare
statement to the scope's sequence and return the handle's data. -/
def FnContext.add_key (c : Ctx) (name : String) :
    Ctx × Except PyErr (String × Nat) :=
  if name ∈ c.knames then
    (c, .error (.valueError ("ambiguous key name: " ++ name)))
  else
    let ix := c.keys.length
    let c1 := { c with keys := c.keys ++ [(name, ix)],
                       knames := name :: c.knames }
    (appendItem c1 0 (.declareKey name ix), .ok (name, ix))

/-- `FnContext.add_local`: always succeeds, assigns the next local index
and appends the declare statement. -/
def FnContext.add_local (c : Ctx) (init : ExprObj) : Ctx × Nat :=
  let ix := c.nlocals
  let c1 := { c with nlocals := c.nlocals + 1 }
  (appendItem c1 0 (.declareLocal ix init), ix)

/-- `FnContext.add_loop`: return the current loop id and advance the
counter. -/
def FnContext.add_loop (c : Ctx) : Ctx × Nat :=
  ({ c with loops := c.loops + 1 }, c.loops)

/-- `FnContext.set_return_value`: append a "return" statement, with no
value for `None` and the compiled expression otherwise. -/
def FnContext.set_return_value (c : Ctx) (value : Option ExprObj) : Ctx :=
  appendItem c 0 (.ret value)

/-- `Sequence.for_`: construct a `ForLoop` (which takes the next loop id
from the scope, creates the index and value variables sharing that id and
a fresh empty body sequence), append it to the calling sequence, and
return the body sequence id with the two variables. -/
def Sequence.for_ (c : Ctx) (sid : Nat) (array : ExprObj) :
    Ctx × Nat × IndexVariable × ValueVariable :=
  let loopIx := c.loops
  let bodyId := c.seqs.length
  let c1 := { c with loops := c.loops + 1, seqs := c.seqs ++ [[]] }
  (appendItem c1 sid (.forLoop array loopIx bodyId),
    bodyId, ⟨loopIx⟩, ⟨loopIx⟩)

/-- `Sequence.if_`: construct a `Branch` (success and failure sequences
both created fresh and empty), append it to the calling sequence, and
return the two child sequence ids. -/
def Sequence.if_ (c : Ctx) (sid : Nat) (condition : ExprObj) :
    Ctx × Nat × Nat :=
  let succId := c.seqs.length
  let failId := c.seqs.length + 1
  let c1 := { c with seqs := c.seqs ++ [[], []] }
  (appendItem c1 sid (.branch condition succId failId), succId, failId)

/-- `Sequence.while_`: construct a `WhileLoop` with a fresh empty body
sequence, append it to the calling sequence, and return the body id. -/
def Sequence.while_ (c : Ctx) (sid : Nat) (condition : ExprObj) :
    Ctx × Nat :=
  let bodyId := c.seqs.length
  let c1 := { c with seqs := c.seqs ++ [[]] }
  (appendItem c1 sid (.whileLoop condition bodyId), bodyId)

mutual
/-- `Compilable.compile()` for one statement: plain statements compile to
their IR node directly; control nodes compile their child sequences (the
source recurses through object references; here child sequences are
looked up in the current state, with a fuel bound on the nesting depth —
`none` only on fuel exhaustion or a dangling child id, neither of which
can occur for states built through the API with enough fuel). -/
def compileItem (c : Ctx) : Nat → Item → Option CommandObj
  | _, .stmt e => some (.stmt e)
  | _, .declareArg name ix => some (.declareArg name ix)
  | _, .declareKey name ix => some (.declareKey name ix)
  | _, .declareLocal ix init => some (.declareLocal ix init)
  | _, .ret v => some (.ret v)
  | 0, .branch _ _ _ => none
  | f + 1, .branch condition succId failId =>
    match c.seqs.get? succId, c.seqs.get? failId with
    | some is1, some is2 =>
      match compileSeqList c f is1, compileSeqList c f is2 with
      | some cs, some ct =>
        some (.branch condition (.seq cs) (.seq ct))
      | _, _ => none
    | _, _ => none
  | 0, .forLoop _ _ _ => none
  | f + 1, .forLoop array loopIx bodyId =>
    match c.seqs.get? bodyId with
    | some items =>
      match compileSeqList c f items with
      | some cb =>
        some (.forC array (IndexVariable.get_index_ref ⟨loopIx⟩)
          (ValueVariable.get_var_ref ⟨loopIx⟩) (.seq cb))
      | none => none
    | none => none
  | 0, .whileLoop _ _ => none
  | f + 1, .whileLoop condition bodyId =>
    match c.seqs.get? bodyId with
    | some items =>
      match compileSeqList c f items with
      | some cb => some (.whileC condition (.seq cb))
      | none => none
    | none => none
termination_by f _ => (f, 0, 0)

/-- `Sequence.get_cmds` over an explicit statement list: compile each
statement in order (`[stmt.compile() for stmt in self._seq]`). -/
def compileSeqList (c : Ctx) (f : Nat) : List Item → Option (List CommandObj)
  | [] => some []
  | it :: rest =>
    match compileItem c f it, compileSeqList c f rest with
    | some cmd, some cmds => some (cmd :: cmds)
    | _, _ => none
termination_by items => (f, 1, items.length)
end

/-- `Sequence.get_cmds`: the compiled statement list of sequence `sid`. -/
def Sequence.get_cmds (c : Ctx) (f : Nat) (sid : Nat) :
    Option (List CommandObj) :=
  match c.seqs.get? sid with
  | some items => compileSeqList c f items
  | none => none

/-- `Seq.compile`: a "seq" node over the compiled statements. -/
def Seq.compile (c : Ctx) (f : Nat) (sid : Nat) : Option SequenceObj :=
  (Sequence.get_cmds c f sid).map .seq

/-- `FnContext.compile`: a "script" node over the compiled statements of
the scope's own sequence, plus the argument and key names in declaration
order. -/
def FnContext.compile (c : Ctx) (f : Nat) : Option SequenceObj :=
  (Sequence.get_cmds c f 0).map fun cmds =>
    .script cmds (c.args.map Prod.fst) (c.keys.map Prod.fst)

/-- One builder API call, used to quantify over arbitrary client build
programs (any interleaving of the public mutating methods of `Sequence`
and `FnContext`). -/
inductive Op where
  | add (sid : Nat) (t : Term)
  | addArg (name : String)
  | addKey (name : String)
  | addLocal (init : ExprObj)
  | forOp (sid : Nat) (array : ExprObj)
  | ifOp (sid : Nat) (condition : ExprObj)
  | whileOp (sid : Nat) (condition : ExprObj)
  | retOp (value : Option ExprObj)
  deriving Repr, DecidableEq

/-- The state effect of one builder call. -/
def applyOp (c : Ctx) : Op → Ctx
  | .add sid t => Sequence.add c sid t
  | .addArg name => (FnContext.add_arg c name).1
  | .addKey name => (FnContext.add_key c name).1
  | .addLocal init => (FnContext.add_local c init).1
  | .forOp sid array => (Sequence.for_ c sid array).1
  | .ifOp sid condition => (Sequence.if_ c sid condition).1
  | .whileOp sid condition => (Sequence.while_ c sid condition).1
  | .retOp value => FnContext.set_return_value c value

/-- Run a build program from a given state. -/
def run (c : Ctx) (ops : List Op) : Ctx :=
  ops.foldl applyOp c

/-- The number of `ForLoop` constructions in a build program. -/
def countFor (ops : List Op) : Nat :=
  ops.countP fun op => match op with | .forOp _ _ => true | _ => false

/-!
Embedding of src/redipy/memory/gfun.py.  A builtin receives an ordered
list of JSON-compatible values (`JSONType` of the source) and returns one,
or fails (a raised exception is `none`).  Python host primitives used by
the builtins (`str()`/`repr()` formatting, `int()`/`float()` parsing,
`str.find`, `json.dumps`) are modelled below; Python `float` is modelled
as an exact rational, which keeps parse success/failure and decimal
literal values faithful while leaving binary rounding out of the model.
-/

/-- A JSON-compatible runtime value (`JSONType`): `None`, `bool`, `int`,
`float` (modelled as `Rat`), `str`, `list`, `dict`. -/
inductive JVal where
  | null
  | b (x : Bool)
  | i (n : Int)
  | f (q : Rat)
  | s (t : String)
  | arr (xs : List JVal)
  | obj (kvs : List (String × JVal))
  deriving Repr

/-- Lowercase hexadecimal digit character for a value below 16. -/
def hexDigit (d : Nat) : Char :=
  if d < 10 then Char.ofNat (48 + d) else Char.ofNat (87 + d)

/-- Two lowercase hex digits of a byte value. -/
def hex2 (n : Nat) : List Char :=
  [hexDigit (n / 16 % 16), hexDigit (n % 16)]

/-- Four lowercase hex digits of a 16-bit value. -/
def hex4 (n : Nat) : List Char :=
  [hexDigit (n / 4096 % 16), hexDigit (n / 256 % 16),
    hexDigit (n / 16 % 16), hexDigit (n % 16)]

/-- ASCII whitespace accepted (and stripped) by Python numeric parsing. -/
def isSpaceChar (ch : Char) : Bool :=
  ch = ' ' || ch = '\t' || ch = '\n' || ch = '\r' ||
    ch.toNat = 11 || ch.toNat = 12

/-- Strip leading and trailing whitespace. -/
def stripSpaces (l : List Char) : List Char :=
  ((l.dropWhile isSpaceChar).reverse.dropWhile isSpaceChar).reverse

/-- Numeric value of a digit string (no validation). -/
def digitsNat (l : List Char) : Nat :=
  l.foldl (fun a ch => a * 10 + (ch.toNat - 48)) 0

/-- A nonempty all-digit string parsed to its value, else `none`. -/
def digitsVal (l : List Char) : Option Nat :=
  if !l.isEmpty && l.all Char.isDigit then some (digitsNat l) else none

/-- Python `int(str)`: optional surrounding whitespace, optional sign,
one or more decimal digits (digit-group underscores are not modelled). -/
def pyIntOfString (t : String) : Option Int :=
  match stripSpaces t.data with
  | '+' :: r => (digitsVal r).map Int.ofNat
  | '-' :: r => (digitsVal r).map fun n => -(n : Int)
  | r => (digitsVal r).map Int.ofNat

/-- Split a character list at the first decimal point. -/
def splitOnDot : List Char → List Char × Option (List Char)
  | [] => ([], none)
  | ch :: r =>
    if ch = '.' then ([], some r)
    else
      let p := splitOnDot r
      (ch :: p.1, p.2)

/-- Split a character list at the first exponent marker `e`/`E`. -/
def splitOnExp : List Char → List Char × Option (List Char)
  | [] => ([], none)
  | ch :: r =>
    if ch = 'e' || ch = 'E' then ([], some r)
    else
      let p := splitOnExp r
      (ch :: p.1, p.2)

/-- Value of a float mantissa: digits, optionally with one decimal point,
at least one digit in total (`12`, `12.`, `.5`, `12.5`). -/
def mantissaVal (l : List Char) : Option Rat :=
  match splitOnDot l with
  | (ip, none) => (digitsVal ip).map fun n => (n : Rat)
  | (ip, some fp) =>
    if (!ip.isEmpty || !fp.isEmpty) && ip.all Char.isDigit
        && fp.all Char.isDigit then
      some ((digitsNat ip : Rat) + (digitsNat fp : Rat) / (10 : Rat) ^ fp.length)
    else none

/-- Value of a float exponent part: optional sign and digits. -/
def expIntVal (l : List Char) : Option Int :=
  match l with
  | '+' :: r => (digitsVal r).map Int.ofNat
  | '-' :: r => (digitsVal r).map fun n => -(n : Int)
  | r => (digitsVal r).map Int.ofNat

/-- Python `float(str)` on decimal literals: optional whitespace and sign,
mantissa with optional decimal point, optional exponent (the `inf`/`nan`
spellings are not modelled). -/
def pyFloatOfString (t : String) : Option Rat :=
  let l := stripSpaces t.data
  let sl : Rat × List Char :=
    match l with
    | '+' :: r => (1, r)
    | '-' :: r => (-1, r)
    | r => (1, r)
  match splitOnExp sl.2 with
  | (mant, none) => (mantissaVal mant).map fun m => sl.1 * m
  | (mant, some ep) =>
    match mantissaVal mant, expIntVal ep with
    | some m, some e => some (sl.1 * m * (10 : Rat) ^ e)
    | _, _ => none

/-- Python `int(x)` on a JSON value: ints pass through, booleans map to
0/1, floats truncate toward zero, strings parse; `None`, lists and dicts
raise (`TypeError`). -/
def pyInt : JVal → Option Int
  | .b x => some (if x then 1 else 0)
  | .i n => some n
  | .f q => some (Int.tdiv q.num (q.den : Int))
  | .s t => pyIntOfString t
  | _ => none

/-- Python `float(x)` on a JSON value: ints and booleans widen, floats
pass through, strings parse; `None`, lists and dicts raise. -/
def pyFloat : JVal → Option Rat
  | .b x => some (if x then 1 else 0)
  | .i n => some (n : Rat)
  | .f q => some q
  | .s t => pyFloatOfString t
  | _ => none

/-- Stand-in rendering for Python float formatting: host floating-point
repr is outside the model and no claim evaluates it. -/
def pyFloatRepr (q : Rat) : String :=
  toString q.num ++ "/" ++ toString q.den

/-- One character of Python `repr` of a string, escaped for the chosen
quote character (control characters hex-escaped; non-ASCII printability
is approximated as printable). -/
def pyReprStrEsc (quote : Char) (ch : Char) : List Char :=
  if ch = '\\' then ['\\', '\\']
  else if ch = quote then ['\\', quote]
  else if ch = '\n' then ['\\', 'n']
  else if ch = '\r' then ['\\', 'r']
  else if ch = '\t' then ['\\', 't']
  else if ch.toNat < 32 || ch.toNat = 127 then '\\' :: 'x' :: hex2 ch.toNat
  else [ch]

/-- Python `repr` of a string: single-quoted, switching to double quotes
when the text has a single quote but no double quote. -/
def pyReprStr (t : String) : String :=
  let sq := Char.ofNat 39
  let q := if t.data.contains sq && !t.data.contains '"' then '"' else sq
  String.mk (q :: (t.data.flatMap (pyReprStrEsc q)) ++ [q])

mutual
/-- Python `repr` of a JSON value, as used by `str()` on containers. -/
def pyRepr : JVal → String
  | .null => "None"
  | .b true => "True"
  | .b false => "False"
  | .i n => toString n
  | .f q => pyFloatRepr q
  | .s t => pyReprStr t
  | .arr xs => "[" ++ String.intercalate ", " (pyReprList xs) ++ "]"
  | .obj kvs => "\x7b" ++ String.intercalate ", " (pyReprKVs kvs) ++ "\x7d"

/-- `repr` of each list element. -/
def pyReprList : List JVal → List String
  | [] => []
  | v :: vs => pyRepr v :: pyReprList vs

/-- `repr` of each dict entry as key-colon-value. -/
def pyReprKVs : List (String × JVal) → List String
  | [] => []
  | (k, v) :: kvs => (pyReprStr k ++ ": " ++ pyRepr v) :: pyReprKVs kvs
end

/-- Python `str(x)` (the f-string conversion applied by the builtins):
the text itself for strings, `repr`-based rendering otherwise. -/
def pyStr : JVal → String
  | .s t => t
  | v => pyRepr v

/-- One character of `json.dumps` string encoding with default
`ensure_ascii`: the JSON short escapes, `uXXXX` escapes (backslash-u)
for other control and non-ASCII characters, surrogate pairs above the
basic plane. -/
def jsonEncodeChar (ch : Char) : List Char :=
  if ch = '"' then ['\\', '"']
  else if ch = '\\' then ['\\', '\\']
  else if ch = '\n' then ['\\', 'n']
  else if ch = '\r' then ['\\', 'r']
  else if ch = '\t' then ['\\', 't']
  else if ch.toNat = 8 then ['\\', 'b']
  else if ch.toNat = 12 then ['\\', 'f']
  else if ch.toNat < 32 then '\\' :: 'u' :: hex4 ch.toNat
  else if ch.toNat < 128 then [ch]
  else if ch.toNat < 65536 then '\\' :: 'u' :: hex4 ch.toNat
  else
    ('\\' :: 'u' :: hex4 (55296 + (ch.toNat - 65536) / 1024)) ++
      ('\\' :: 'u' :: hex4 (56320 + (ch.toNat - 65536) % 1024))

/-- `json.dumps` applied to a string value (`sort_keys=True, indent=None,
separators=(",", ":")`): for a top-level string the parameters are inert
and the output is the quoted, escaped text on one line. -/
def jsonDumpsStr (t : String) : String :=
  String.mk ('"' :: (t.data.flatMap jsonEncodeChar) ++ ['"'])

/-- `GCJSONEncodeFn.call` ("cjson.encode", arity 1): stringify the single
argument, then JSON-encode that string. -/
def GCJSONEncodeFn.call (args : List JVal) : Option JVal :=
  match args with
  | [a] => some (.s (jsonDumpsStr (pyStr a)))
  | _ => none

/-- Scan for the first suffix of which the needle is a prefix, returning
its offset within the scanned list. -/
def pyFindIdx (n : List Char) : List Char → Option Nat
  | [] => if n.isPrefixOf ([] : List Char) then some 0 else none
  | ch :: r =>
    if n.isPrefixOf (ch :: r) then some 0
    else (pyFindIdx n r).map (· + 1)

/-- Python `str.find(needle, start)`: a negative start counts from the
end (clamped at 0); the result is the least index at or after the start
where the needle occurs, `none` when it does not occur there. -/
def pyFind (h n : List Char) (st : Int) : Option Nat :=
  let s0 : Nat := if st < 0 then h.length - (-st).toNat else st.toNat
  if h.length < s0 then none
  else (pyFindIdx n (h.drop s0)).map (s0 + ·)

/-- `GStringFindFn.call` ("string.find", arity 2 up to 3): stringify both
arguments, search from the optional third argument coerced by `int()`
(absent means start 0), and map a missed search to `None`. -/
def GStringFindFn.call (args : List JVal) : Option JVal :=
  match args with
  | [a, b] =>
    some (match pyFind (pyStr a).data (pyStr b).data 0 with
      | some k => .i (k : Int)
      | none => .null)
  | [a, b, c] =>
    (pyInt c).map fun st =>
      match pyFind (pyStr a).data (pyStr b).data st with
      | some k => JVal.i (k : Int)
      | none => JVal.null
  | _ => none

/-- `GToNumberFn.call` ("tonumber", arity 1): try `int()` on the single
argument; on failure try `float()`; fail when both fail. -/
def GToNumberFn.call (args : List JVal) : Option JVal :=
  match args with
  | [v] =>
    match pyInt v with
    | some n => some (.i n)
    | none => (pyFloat v).map .f
  | _ => none

/-- N successive `Sequence.add` calls on one sequence. -/
def addAll (c : Ctx) (sid : Nat) (ts : List Term) : Ctx :=
  ts.foldl (fun c t => Sequence.add c sid t) c

/-- Names paired with successive indices starting at `k`. -/
def withIndicesFrom (k : Nat) : List String → List (String × Nat)
  | [] => []
  | n :: ns => (n, k) :: withIndicesFrom (k + 1) ns

theorem appendAt_length (l : List (List Item)) (n : Nat) (it : Item) :
    (appendAt l n it).length = l.length := by
  induction l generalizing n with
  | nil => rfl
  | cons s rest ih =>
    cases n with
    | zero => rfl
    | succ m => simp [appendAt, ih]

theorem get?_appendAt_self (l : List (List Item)) (n : Nat) (it : Item)
    (h : n < l.length) :
    (appendAt l n it).get? n = some (l.getD n [] ++ [it]) := by
  induction l generalizing n with
  | nil => simp at h
  | cons s rest ih =>
    cases n with
    | zero => simp [appendAt, List.getD]
    | succ m =>
      simp only [appendAt, List.get?, List.getD_cons_succ]
      exact ih m (by simpa using h)

theorem get?_appendAt_ne (l : List (List Item)) (n m : Nat) (it : Item)
    (h : m ≠ n) : (appendAt l n it).get? m = l.get? m := by
  induction l generalizing n m with
  | nil => rfl
  | cons s rest ih =>
    cases n with
    | zero =>
      cases m with
      | zero => exact absurd rfl h
      | succ m => rfl
    | succ n =>
      cases m with
      | zero => rfl
      | succ m =>
        simp only [appendAt, List.get?]
        exact ih n m fun he => h (by simp [he])

theorem add_seqs (c : Ctx) (sid : Nat) (t : Term) :
    (Sequence.add c sid t).seqs = appendAt c.seqs sid t.toItem := by
  cases t <;> rfl

theorem add_fields (c : Ctx) (sid : Nat) (t : Term) :
    (Sequence.add c sid t).args = c.args ∧
    (Sequence.add c sid t).keys = c.keys ∧
    (Sequence.add c sid t).anames = c.anames ∧
    (Sequence.add c sid t).knames = c.knames ∧
    (Sequence.add c sid t).loops = c.loops := by
  cases t <;> exact ⟨rfl, rfl, rfl, rfl, rfl⟩

theorem get?_of_lt {l : List (List Item)} {n : Nat} (h : n < l.length) :
    l.get? n = some (l.getD n []) := by
  rw [List.get?_eq_getElem?, List.getD_eq_getElem?_getD,
    List.getElem?_eq_getElem h]
  rfl

theorem getD_of_get?_eq {l : List (List Item)} {n : Nat} {x : List Item}
    (h : l.get? n = some x) : l.getD n [] = x := by
  rw [List.getD_eq_getElem?_getD, ← List.get?_eq_getElem?, h]
  rfl

theorem addAll_seqs_length (c : Ctx) (sid : Nat) (ts : List Term) :
    (addAll c sid ts).seqs.length = c.seqs.length := by
  induction ts generalizing c with
  | nil => rfl
  | cons t ts ih =>
    show (addAll (Sequence.add c sid t) sid ts).seqs.length = _
    rw [ih, add_seqs, appendAt_length]

theorem addAll_get?_self (c : Ctx) (sid : Nat) (ts : List Term)
    (h : sid < c.seqs.length) :
    (addAll c sid ts).seqs.get? sid
      = some (c.seqs.getD sid [] ++ ts.map Term.toItem) := by
  induction ts generalizing c with
  | nil =>
    simp only [addAll, List.foldl_nil, List.map_nil, List.append_nil]
    exact get?_of_lt h
  | cons t ts ih =>
    show (addAll (Sequence.add c sid t) sid ts).seqs.get? sid = _
    have hl : sid < (Sequence.add c sid t).seqs.length := by
      rw [add_seqs, appendAt_length]; exact h
    rw [ih _ hl]
    have hg : (Sequence.add c sid t).seqs.get? sid
        = some (c.seqs.getD sid [] ++ [t.toItem]) := by
      rw [add_seqs]; exact get?_appendAt_self _ _ _ h
    rw [getD_of_get?_eq hg]
    simp

theorem addAll_get?_ne (c : Ctx) (sid : Nat) (ts : List Term) (m : Nat)
    (h : m ≠ sid) :
    (addAll c sid ts).seqs.get? m = c.seqs.get? m := by
  induction ts generalizing c with
  | nil => rfl
  | cons t ts ih =>
    show (addAll (Sequence.add c sid t) sid ts).seqs.get? m = _
    rw [ih, add_seqs, get?_appendAt_ne _ _ _ _ h]

theorem compileSeqList_length {c : Ctx} {f : Nat} {items : List Item}
    {cmds : List CommandObj} (h : compileSeqList c f items = some cmds) :
    cmds.length = items.length := by
  induction items generalizing cmds with
  | nil =>
    simp only [compileSeqList] at h
    cases h; rfl
  | cons it rest ih =>
    rw [compileSeqList] at h
    cases hc : compileItem c f it with
    | none => rw [hc] at h; exact absurd h (by simp)
    | some cmd =>
      cases hr : compileSeqList c f rest with
      | none => rw [hc, hr] at h; exact absurd h (by simp)
      | some cmds2 =>
        rw [hc, hr] at h
        cases h
        simp [ih hr]

theorem compileSeqList_get? {c : Ctx} {f : Nat} {items : List Item}
    {cmds : List CommandObj} (h : compileSeqList c f items = some cmds) :
    ∀ k it, items.get? k = some it →
      ∃ cmd, compileItem c f it = some cmd ∧ cmds.get? k = some cmd := by
  induction items generalizing cmds with
  | nil => intro k it hk; simp at hk
  | cons it0 rest ih =>
    intro k it hk
    rw [compileSeqList] at h
    cases hc : compileItem c f it0 with
    | none => rw [hc] at h; exact absurd h (by simp)
    | some cmd0 =>
      cases hr : compileSeqList c f rest with
      | none => rw [hc, hr] at h; exact absurd h (by simp)
      | some cmds2 =>
        rw [hc, hr] at h
        cases h
        cases k with
        | zero =>
          cases hk
          exact ⟨cmd0, hc, rfl⟩
        | succ k =>
          exact ih hr k it hk

theorem compileItem_stmt (c : Ctx) (f : Nat) (e : ExprObj) :
    compileItem c f (.stmt e) = some (.stmt e) := by
  cases f <;> simp [compileItem]

theorem compileSeqList_map_stmt (c : Ctx) (f : Nat) (es : List ExprObj) :
    compileSeqList c f (es.map Item.stmt)
      = some (es.map CommandObj.stmt) := by
  induction es with
  | nil => simp [compileSeqList]
  | cons e es ih =>
    rw [List.map_cons, compileSeqList, ih, compileItem_stmt]
    rfl

theorem compiled_terms_facts {c : Ctx} {f : Nat} {ts : List Term}
    {body : List CommandObj}
    (h : compileSeqList c f (ts.map Term.toItem) = some body) :
    body.length = ts.length ∧
      ∀ k e, ts.get? k = some (Term.expr e) →
        body.get? k = some (CommandObj.stmt e) := by
  constructor
  · exact (compileSeqList_length h).trans (by simp)
  · intro k e hk
    have hit : (ts.map Term.toItem).get? k = some (Item.stmt e) := by
      rw [List.get?_map, hk]
      rfl
    obtain ⟨cmd, hcomp, hcm⟩ := compileSeqList_get? h k _ hit
    rw [compileItem_stmt] at hcomp
    cases hcomp
    exact hcm

theorem applyOp_loops (c : Ctx) (op : Op) :
    (applyOp c op).loops
      = c.loops + (match op with | .forOp _ _ => 1 | _ => 0) := by
  cases op with
  | add sid t => simpa using (add_fields c sid t).2.2.2.2
  | addArg name =>
    simp only [applyOp, FnContext.add_arg]
    split <;> rfl
  | addKey name =>
    simp only [applyOp, FnContext.add_key]
    split <;> rfl
  | addLocal init => rfl
  | forOp sid array => rfl
  | ifOp sid condition => rfl
  | whileOp sid condition => rfl
  | retOp value => rfl

theorem run_loops (c : Ctx) (ops : List Op) :
    (run c ops).loops = c.loops + countFor ops := by
  induction ops generalizing c with
  | nil => rfl
  | cons op ops ih =>
    show (run (applyOp c op) ops).loops = _
    rw [ih, applyOp_loops]
    cases op
    all_goals simp [countFor, List.countP_cons]
    all_goals omega

theorem compileItem_branch {c : Ctx} {f : Nat} {s t : Nat}
    {is1 is2 : List Item} {cs ct : List CommandObj} {cond : ExprObj}
    (h1 : c.seqs.get? s = some is1) (h2 : c.seqs.get? t = some is2)
    (h3 : compileSeqList c f is1 = some cs)
    (h4 : compileSeqList c f is2 = some ct) :
    compileItem c (f + 1) (.branch cond s t)
      = some (.branch cond (.seq cs) (.seq ct)) := by
  rw [List.get?_eq_getElem?] at h1 h2
  simp [compileItem, h1, h2, h3, h4]

theorem compileItem_forLoop {c : Ctx} {f : Nat} {bodyId : Nat}
    {items : List Item} {cb : List CommandObj} {array : ExprObj}
    {loopIx : Nat}
    (h1 : c.seqs.get? bodyId = some items)
    (h2 : compileSeqList c f items = some cb) :
    compileItem c (f + 1) (.forLoop array loopIx bodyId)
      = some (.forC array (IndexVariable.get_index_ref ⟨loopIx⟩)
          (ValueVariable.get_var_ref ⟨loopIx⟩) (.seq cb)) := by
  rw [List.get?_eq_getElem?] at h1
  simp [compileItem, h1, h2]

theorem compileItem_whileLoop {c : Ctx} {f : Nat} {bodyId : Nat}
    {items : List Item} {cb : List CommandObj} {cond : ExprObj}
    (h1 : c.seqs.get? bodyId = some items)
    (h2 : compileSeqList c f items = some cb) :
    compileItem c (f + 1) (.whileLoop cond bodyId)
      = some (.whileC cond (.seq cb)) := by
  rw [List.get?_eq_getElem?] at h1
  simp [compileItem, h1, h2]

theorem compileItem_forLoop_inv {c : Ctx} {f : Nat} {array : ExprObj}
    {loopIx bodyId : Nat} {cmd : CommandObj} {items : List Item}
    (h : compileItem c (f + 1) (.forLoop array loopIx bodyId) = some cmd)
    (hb : c.seqs.get? bodyId = some items) :
    ∃ body, compileSeqList c f items = some body ∧
      cmd = .forC array (IndexVariable.get_index_ref ⟨loopIx⟩)
        (ValueVariable.get_var_ref ⟨loopIx⟩) (.seq body) := by
  simp only [compileItem] at h
  split at h
  · rename_i is0 heq
    split at h
    · rename_i cb heq2
      injection h with h2
      rw [hb] at heq
      injection heq with h3
      subst h3
      exact ⟨cb, heq2, h2.symm⟩
    · injection h
  · injection h

theorem compileItem_branch_inv {c : Ctx} {f : Nat} {cond : ExprObj}
    {s t : Nat} {cmd : CommandObj} {is1 is2 : List Item}
    (h : compileItem c (f + 1) (.branch cond s t) = some cmd)
    (h1 : c.seqs.get? s = some is1) (h2 : c.seqs.get? t = some is2) :
    ∃ cs ct, compileSeqList c f is1 = some cs ∧
      compileSeqList c f is2 = some ct ∧
      cmd = .branch cond (.seq cs) (.seq ct) := by
  simp only [compileItem] at h
  split at h
  · rename_i is10 is20 heq1 heq2
    split at h
    · rename_i cs ct heq3 heq4
      injection h with h5
      rw [h1] at heq1
      rw [h2] at heq2
      injection heq1 with h6
      injection heq2 with h7
      subst h6
      subst h7
      exact ⟨cs, ct, heq3, heq4, h5.symm⟩
    · injection h
  · injection h

theorem compileItem_whileLoop_inv {c : Ctx} {f : Nat} {cond : ExprObj}
    {bodyId : Nat} {cmd : CommandObj} {items : List Item}
    (h : compileItem c (f + 1) (.whileLoop cond bodyId) = some cmd)
    (hb : c.seqs.get? bodyId = some items) :
    ∃ body, compileSeqList c f items = some body ∧
      cmd = .whileC cond (.seq body) := by
  simp only [compileItem] at h
  split at h
  · rename_i is0 heq
    split at h
    · rename_i cb heq2
      injection h with h2
      rw [hb] at heq
      injection heq with h3
      subst h3
      exact ⟨cb, heq2, h2.symm⟩
    · injection h
  · injection h

theorem run_addArgs (names : List String) (c : Ctx)
    (hd : names.Nodup) (hm : ∀ n ∈ names, n ∉ c.anames) :
    (run c (names.map Op.addArg)).args
      = c.args ++ withIndicesFrom c.args.length names := by
  induction names generalizing c with
  | nil => simp [run, withIndicesFrom]
  | cons n ns ih =>
    have hn : n ∉ c.anames := hm n (by simp)
    have hstep : applyOp c (Op.addArg n)
        = appendItem
            { c with args := c.args ++ [(n, c.args.length)],
                     anames := n :: c.anames } 0
            (.declareArg n c.args.length) := by
      simp [applyOp, FnContext.add_arg, hn]
    show (run (applyOp c (Op.addArg n)) (ns.map Op.addArg)).args = _
    rw [hstep]
    rw [ih _ (List.Nodup.of_cons hd)]
    · simp [appendItem, withIndicesFrom]
    · intro m hmem
      simp only [appendItem, List.mem_cons]
      rintro (rfl | hc)
      · exact (List.nodup_cons.mp hd).1 hmem
      · exact hm m (by simp [hmem]) hc

theorem run_addKeys (names : List String) (c : Ctx)
    (hd : names.Nodup) (hm : ∀ n ∈ names, n ∉ c.knames) :
    (run c (names.map Op.addKey)).keys
      = c.keys ++ withIndicesFrom c.keys.length names := by
  induction names generalizing c with
  | nil => simp [run, withIndicesFrom]
  | cons n ns ih =>
    have hn : n ∉ c.knames := hm n (by simp)
    have hstep : applyOp c (Op.addKey n)
        = appendItem
            { c with keys := c.keys ++ [(n, c.keys.length)],
                     knames := n :: c.knames } 0
            (.declareKey n c.keys.length) := by
      simp [applyOp, FnContext.add_key, hn]
    show (run (applyOp c (Op.addKey n)) (ns.map Op.addKey)).keys = _
    rw [hstep]
    rw [ih _ (List.Nodup.of_cons hd)]
    · simp [appendItem, withIndicesFrom]
    · intro m hmem
      simp only [appendItem, List.mem_cons]
      rintro (rfl | hc)
      · exact (List.nodup_cons.mp hd).1 hmem
      · exact hm m (by simp [hmem]) hc

theorem pyFindIdx_some_spec (n : List Char) :
    ∀ (rest : List Char) (d : Nat), pyFindIdx n rest = some d →
      (n <+: rest.drop d) ∧ ∀ j, j < d → ¬ n <+: rest.drop j := by
  intro rest
  induction rest with
  | nil =>
    intro d h
    rw [pyFindIdx] at h
    split at h
    · rename_i hpre
      cases h
      refine ⟨by simpa [List.isPrefixOf_iff_prefix] using hpre, ?_⟩
      intro j hj
      exact absurd hj (Nat.not_lt_zero j)
    · cases h
  | cons ch r ih =>
    intro d h
    rw [pyFindIdx] at h
    split at h
    · rename_i hpre
      cases h
      refine ⟨by simpa [List.isPrefixOf_iff_prefix] using hpre, ?_⟩
      intro j hj
      exact absurd hj (Nat.not_lt_zero j)
    · rename_i hpre
      cases hr : pyFindIdx n r with
      | none => rw [hr] at h; cases h
      | some d0 =>
        rw [hr, Option.map_some'] at h
        cases h
        obtain ⟨hp, hmin⟩ := ih d0 hr
        refine ⟨by simpa using hp, ?_⟩
        intro j hj
        cases j with
        | zero =>
          simpa [List.isPrefixOf_iff_prefix] using hpre
        | succ j =>
          have := hmin j (by omega)
          simpa using this

theorem pyFindIdx_none_spec (n : List Char) :
    ∀ (rest : List Char), pyFindIdx n rest = none →
      ∀ j, j ≤ rest.length → ¬ n <+: rest.drop j := by
  intro rest
  induction rest with
  | nil =>
    intro h j hj
    rw [pyFindIdx] at h
    split at h
    · cases h
    · rename_i hpre
      have hj0 : j = 0 := by simpa using hj
      subst hj0
      simpa [List.isPrefixOf_iff_prefix] using hpre
  | cons ch r ih =>
    intro h j hj
    rw [pyFindIdx] at h
    split at h
    · cases h
    · rename_i hpre
      cases hr : pyFindIdx n r with
      | some d0 => rw [hr, Option.map_some'] at h; cases h
      | none =>
        cases j with
        | zero => simpa [List.isPrefixOf_iff_prefix] using hpre
        | succ j =>
          have := ih hr j (by simpa using hj)
          simpa using this

theorem pyFind_start_spec (h n : List Char) (st k : Nat)
    (hk : pyFind h n (st : Int) = some k) :
    st ≤ k ∧ (n <+: h.drop k) ∧
      ∀ j, st ≤ j → j < k → ¬ n <+: h.drop j := by
  have hs0 : (if (st : Int) < 0 then h.length - (-(st : Int)).toNat
      else (st : Int).toNat) = st := by
    simp
  rw [pyFind] at hk
  simp only [hs0] at hk
  split at hk
  · cases hk
  · cases hidx : pyFindIdx n (h.drop st) with
    | none => rw [hidx] at hk; cases hk
    | some d =>
      rw [hidx, Option.map_some'] at hk
      cases hk
      obtain ⟨hp, hmin⟩ := pyFindIdx_some_spec n (h.drop st) d hidx
      rw [List.drop_drop] at hp
      refine ⟨by omega, hp, ?_⟩
      intro j hj1 hj2
      have hmj := hmin (j - st) (by omega)
      rw [List.drop_drop] at hmj
      have he : st + (j - st) = j := by omega
      rw [he] at hmj
      exact hmj

theorem pyFind_none_spec (h n : List Char)
    (hk : pyFind h n 0 = none) :
    ∀ j, j ≤ h.length → ¬ n <+: h.drop j := by
  have hs0 : (if (0 : Int) < 0 then h.length - (-(0 : Int)).toNat
      else (0 : Int).toNat) = 0 := by
    simp
  rw [pyFind] at hk
  simp only [hs0] at hk
  split at hk
  · rename_i hlt
    exact absurd hlt (by omega)
  · rw [Option.map_eq_none'] at hk
    rw [List.drop_zero] at hk
    exact pyFindIdx_none_spec n h hk

theorem hexDigit_ne_newline (d : Nat) (hd : d < 16) : hexDigit d ≠ '\n' := by
  interval_cases d <;> decide

theorem hex4_ne_newline (n : Nat) (x : Char) (hx : x ∈ hex4 n) :
    x ≠ '\n' := by
  simp only [hex4, List.mem_cons, List.not_mem_nil, or_false] at hx
  rcases hx with rfl | rfl | rfl | rfl <;>
    exact hexDigit_ne_newline _ (Nat.mod_lt _ (by omega))

theorem jsonEncodeChar_no_newline (ch : Char) :
    ∀ x ∈ jsonEncodeChar ch, x ≠ '\n' := by
  intro x hx
  rw [jsonEncodeChar] at hx
  repeat' split at hx
  · simp only [List.mem_cons, List.not_mem_nil, or_false] at hx
    rcases hx with rfl | rfl <;> decide
  · simp only [List.mem_cons, List.not_mem_nil, or_false] at hx
    rcases hx with rfl | rfl <;> decide
  · simp only [List.mem_cons, List.not_mem_nil, or_false] at hx
    rcases hx with rfl | rfl <;> decide
  · simp only [List.mem_cons, List.not_mem_nil, or_false] at hx
    rcases hx with rfl | rfl <;> decide
  · simp only [List.mem_cons, List.not_mem_nil, or_false] at hx
    rcases hx with rfl | rfl <;> decide
  · simp only [List.mem_cons, List.not_mem_nil, or_false] at hx
    rcases hx with rfl | rfl <;> decide
  · simp only [List.mem_cons, List.not_mem_nil, or_false] at hx
    rcases hx with rfl | rfl <;> decide
  · simp only [List.mem_cons] at hx
    rcases hx with rfl | rfl | hx
    · decide
    · decide
    · exact hex4_ne_newline _ _ hx
  · simp only [List.mem_singleton] at hx
    subst hx
    rename_i hn32 h128
    intro hne
    rw [hne] at hn32
    exact hn32 (by decide)
  · simp only [List.mem_cons] at hx
    rcases hx with rfl | rfl | hx
    · decide
    · decide
    · exact hex4_ne_newline _ _ hx
  · simp only [List.mem_append, List.mem_cons] at hx
    rcases hx with (rfl | rfl | hx) | (rfl | rfl | hx)
    · decide
    · decide
    · exact hex4_ne_newline _ _ hx
    · decide
    · decide
    · exact hex4_ne_newline _ _ hx

theorem newline_not_mem_jsonDumpsStr (t : String) :
    '\n' ∉ (jsonDumpsStr t).data := by
  intro hm
  have hm2 : '\n' ∈ ('"' :: (t.data.flatMap jsonEncodeChar ++ ['"'])) := hm
  rcases List.mem_cons.mp hm2 with he | hin
  · exact absurd he (by decide)
  rcases List.mem_append.mp hin with hin | he
  · obtain ⟨ch, _, hch⟩ := List.mem_flatMap.mp hin
    exact jsonEncodeChar_no_newline ch _ hch rfl
  · exact absurd he (by decide)

/-- C1: compiling an empty sequence (`get_cmds`) yields an empty statement
list; after N calls to `add` on an initially empty sequence the compiled
output has exactly N IR nodes in insertion order, and an entry added as a
bare expression compiles to a "stmt" node wrapping that expression; when
every entry is a bare expression the output is exactly the list of "stmt"
nodes over the added expressions, in order. -/
theorem C1_empty_and_insertion_order :
    (∀ f, Sequence.get_cmds freshCtx f 0 = some []) ∧
    (∀ c sid ts f cmds, sid < c.seqs.length → c.seqs.getD sid [] = [] →
      Sequence.get_cmds (addAll c sid ts) f sid = some cmds →
      cmds.length = ts.length ∧
        ∀ k e, ts.get? k = some (Term.expr e) →
          cmds.get? k = some (CommandObj.stmt e)) ∧
    (∀ (c : Ctx) (sid : Nat) (es : List ExprObj) (f : Nat),
      sid < c.seqs.length → c.seqs.getD sid [] = [] →
      Sequence.get_cmds (addAll c sid (es.map Term.expr)) f sid
        = some (es.map CommandObj.stmt)) := by
  refine ⟨?_, ?_, ?_⟩
  · intro f
    have hg : freshCtx.seqs.get? 0 = some [] := rfl
    simp only [Sequence.get_cmds, hg]
    simp [compileSeqList]
  · intro c sid ts f cmds hs hemp hc
    have hg := addAll_get?_self c sid ts hs
    rw [hemp, List.nil_append] at hg
    simp only [Sequence.get_cmds, hg] at hc
    constructor
    · exact (compileSeqList_length hc).trans (by simp)
    · intro k e hk
      have hit : (ts.map Term.toItem).get? k = some (Item.stmt e) := by
        rw [List.get?_map, hk]
        rfl
      obtain ⟨cmd, hcomp, hcm⟩ := compileSeqList_get? hc k _ hit
      rw [compileItem_stmt] at hcomp
      cases hcomp
      exact hcm
  · intro c sid es f hs hemp
    have hg := addAll_get?_self c sid (es.map Term.expr) hs
    rw [hemp, List.nil_append] at hg
    have hmm : (es.map Term.expr).map Term.toItem = es.map Item.stmt := by
      simp [List.map_map, Term.toItem, Function.comp]
    rw [hmm] at hg
    simp only [Sequence.get_cmds, hg]
    exact compileSeqList_map_stmt _ _ _

/-- C1 witness: two bare expressions added to the fresh scope compile to
two "stmt" nodes in order. -/
theorem C1_witness :
    Sequence.get_cmds
        (addAll freshCtx 0 ([ExprObj.ext 0, ExprObj.ext 1].map Term.expr))
        1 0
      = some ([ExprObj.ext 0, ExprObj.ext 1].map CommandObj.stmt) :=
  C1_empty_and_insertion_order.2.2 freshCtx 0 [ExprObj.ext 0, ExprObj.ext 1]
    1 (by decide) rfl

/-- C2: `add_arg`/`add_key` assign indices 0, 1, 2, … in declaration order
counted separately per namespace; a duplicate name in the same namespace
fails with the naming-conflict `ValueError`; the two namespaces are
independent, so one name can be declared once as an argument and once as a
key; a successful declaration appends a declare statement to the scope's
own sequence and returns the handle with the new index. -/
theorem C2_arg_key_declarations :
    (∀ c name, name ∈ c.anames →
      FnContext.add_arg c name
        = (c, .error (.valueError ("ambiguous arg name: " ++ name)))) ∧
    (∀ c name, name ∉ c.anames →
      (FnContext.add_arg c name).2 = .ok (name, c.args.length) ∧
      (FnContext.add_arg c name).1.args
        = c.args ++ [(name, c.args.length)] ∧
      (FnContext.add_arg c name).1.keys = c.keys ∧
      (0 < c.seqs.length →
        (FnContext.add_arg c name).1.seqs.get? 0
          = some (c.seqs.getD 0 []
              ++ [Item.declareArg name c.args.length]))) ∧
    (∀ c name, name ∈ c.knames →
      FnContext.add_key c name
        = (c, .error (.valueError ("ambiguous key name: " ++ name)))) ∧
    (∀ c name, name ∉ c.knames →
      (FnContext.add_key c name).2 = .ok (name, c.keys.length) ∧
      (FnContext.add_key c name).1.keys
        = c.keys ++ [(name, c.keys.length)] ∧
      (FnContext.add_key c name).1.args = c.args ∧
      (0 < c.seqs.length →
        (FnContext.add_key c name).1.seqs.get? 0
          = some (c.seqs.getD 0 []
              ++ [Item.declareKey name c.keys.length]))) ∧
    (∀ c name, name ∉ c.knames →
      (FnContext.add_key (FnContext.add_arg c name).1 name).2
        = .ok (name, c.keys.length)) ∧
    (∀ names : List String, names.Nodup →
      (run freshCtx (names.map Op.addArg)).args
        = withIndicesFrom 0 names ∧
      (run freshCtx (names.map Op.addKey)).keys
        = withIndicesFrom 0 names) := by
  refine ⟨?_, ?_, ?_, ?_, ?_, ?_⟩
  · intro c name hmem
    simp [FnContext.add_arg, hmem]
  · intro c name hmem
    refine ⟨by simp [FnContext.add_arg, hmem],
      by simp [FnContext.add_arg, hmem, appendItem],
      by simp [FnContext.add_arg, hmem, appendItem], ?_⟩
    intro hlen
    have hseqs : (FnContext.add_arg c name).1.seqs
        = appendAt c.seqs 0 (.declareArg name c.args.length) := by
      simp [FnContext.add_arg, hmem, appendItem]
    rw [hseqs]
    exact get?_appendAt_self _ _ _ hlen
  · intro c name hmem
    simp [FnContext.add_key, hmem]
  · intro c name hmem
    refine ⟨by simp [FnContext.add_key, hmem],
      by simp [FnContext.add_key, hmem, appendItem],
      by simp [FnContext.add_key, hmem, appendItem], ?_⟩
    intro hlen
    have hseqs : (FnContext.add_key c name).1.seqs
        = appendAt c.seqs 0 (.declareKey name c.keys.length) := by
      simp [FnContext.add_key, hmem, appendItem]
    rw [hseqs]
    exact get?_appendAt_self _ _ _ hlen
  · intro c name hk
    by_cases ha : name ∈ c.anames
    · simp [FnContext.add_arg, ha, FnContext.add_key, hk]
    · have h1 : (FnContext.add_arg c name).1.knames = c.knames := by
        simp [FnContext.add_arg, ha, appendItem]
      have h2 : (FnContext.add_arg c name).1.keys = c.keys := by
        simp [FnContext.add_arg, ha, appendItem]
      simp [FnContext.add_key, h1, h2, hk]
  · intro names hd
    constructor
    · have := run_addArgs names freshCtx hd
        (by intro n _ hc; simp [freshCtx] at hc)
      simpa [freshCtx] using this
    · have := run_addKeys names freshCtx hd
        (by intro n _ hc; simp [freshCtx] at hc)
      simpa [freshCtx] using this

/-- C2 witness: on a fresh scope, declaring argument "x" yields index 0,
and declaring key "x" afterwards also succeeds with key index 0. -/
theorem C2_witness :
    (FnContext.add_arg freshCtx "x").2 = .ok ("x", 0) ∧
    (FnContext.add_key (FnContext.add_arg freshCtx "x").1 "x").2
      = .ok ("x", 0) := by
  constructor
  · exact (C2_arg_key_declarations.2.1 freshCtx "x" (by simp [freshCtx])).1
  · exact C2_arg_key_declarations.2.2.2.2.1 freshCtx "x" (by simp [freshCtx])

/-- C5: a `Branch` compiles to a node carrying the compiled condition and
both compiled child sequences; both are always present, and a child left
empty compiles to a "seq" node with an empty statement list, never to an
absent branch. -/
theorem C5_branch_both_children :
    (∀ (c : Ctx) (f : Nat) (condition : ExprObj) (s t : Nat)
      (is1 is2 : List Item) (cs ct : List CommandObj),
      c.seqs.get? s = some is1 → c.seqs.get? t = some is2 →
      compileSeqList c f is1 = some cs →
      compileSeqList c f is2 = some ct →
      compileItem c (f + 1) (.branch condition s t)
        = some (.branch condition (.seq cs) (.seq ct))) ∧
    (∀ (c : Ctx) (sid : Nat) (condition : ExprObj) (f : Nat),
      sid < c.seqs.length →
      compileItem (Sequence.if_ c sid condition).1 (f + 1)
          (Item.branch condition (Sequence.if_ c sid condition).2.1
            (Sequence.if_ c sid condition).2.2)
        = some (.branch condition (.seq []) (.seq []))) := by
  constructor
  · intro c f condition s t is1 is2 cs ct h1 h2 h3 h4
    exact compileItem_branch h1 h2 h3 h4
  · intro c sid condition f hs
    have hne : sid ≠ c.seqs.length := by omega
    have hne2 : sid ≠ c.seqs.length + 1 := by omega
    have hsucc : (Sequence.if_ c sid condition).1.seqs.get? c.seqs.length
        = some [] := by
      show (appendAt (c.seqs ++ [[], []]) sid
          (.branch condition c.seqs.length (c.seqs.length + 1))).get?
          c.seqs.length = _
      rw [get?_appendAt_ne _ _ _ _ hne.symm,
        List.get?_append_right (Nat.le_refl _)]
      simp
    have hfail : (Sequence.if_ c sid condition).1.seqs.get?
        (c.seqs.length + 1) = some [] := by
      show (appendAt (c.seqs ++ [[], []]) sid
          (.branch condition c.seqs.length (c.seqs.length + 1))).get?
          (c.seqs.length + 1) = _
      rw [get?_appendAt_ne _ _ _ _ hne2.symm,
        List.get?_append_right (by omega)]
      simp
    have hemp : compileSeqList (Sequence.if_ c sid condition).1 f []
        = some [] := by
      simp [compileSeqList]
    exact compileItem_branch hsucc hfail hemp hemp

/-- C5 witness: an `if_` on a fresh scope compiles, with both children
left empty, to a branch node with the condition and two empty "seq"
nodes. -/
theorem C5_witness :
    compileItem (Sequence.if_ freshCtx 0 (.ext 1)).1 (0 + 1)
        (Item.branch (.ext 1) (Sequence.if_ freshCtx 0 (.ext 1)).2.1
          (Sequence.if_ freshCtx 0 (.ext 1)).2.2)
      = some (.branch (.ext 1) (.seq []) (.seq [])) :=
  C5_branch_both_children.2 freshCtx 0 (.ext 1) 0 (by decide)

/-- C9: requesting the declaration right-hand side of a for loop's Index
or Value variable always fails, and with the fatal `RuntimeError` misuse
kind ("must be used in for loop"), not the recoverable `ValueError`
kind. -/
theorem C9_loop_variable_declare_rhs_fatal :
    ∀ (vi : IndexVariable) (vv : ValueVariable),
    vi.get_declare_rhs
      = .error (.runtimeError "must be used in for loop") ∧
    vv.get_declare_rhs
      = .error (.runtimeError "must be used in for loop") ∧
    (∀ msg, vi.get_declare_rhs ≠ .error (.valueError msg)) ∧
    (∀ msg, vv.get_declare_rhs ≠ .error (.valueError msg)) ∧
    (∀ e : ExprObj, vi.get_declare_rhs ≠ .ok e) ∧
    (∀ e : ExprObj, vv.get_declare_rhs ≠ .ok e) := by
  intro vi vv
  refine ⟨rfl, rfl, ?_, ?_, ?_, ?_⟩ <;> intro x hx <;> cases hx

/-- C9 witness: the loop variables with id 0 fail with the RuntimeError
misuse kind. -/
theorem C9_witness :
    (⟨0⟩ : IndexVariable).get_declare_rhs
      = .error (.runtimeError "must be used in for loop") :=
  (C9_loop_variable_declare_rhs_fatal ⟨0⟩ ⟨0⟩).1

/-- C6: "cjson.encode" stringifies its single argument and then
JSON-encodes that string; the encoded output is one line (no newline
character can appear); consequently structured values are flattened to
their textual form — a two-element array encodes to the JSON string
"[1, 2]" rather than to a JSON array. -/
theorem C6_cjson_encode_stringify_then_encode :
    (∀ v, GCJSONEncodeFn.call [v]
        = some (.s (jsonDumpsStr (pyStr v)))) ∧
    (∀ v out, GCJSONEncodeFn.call [v] = some (.s out) →
      '\n' ∉ out.data) ∧
    GCJSONEncodeFn.call [JVal.arr [.i 1, .i 2]]
      = some (.s "\"[1, 2]\"") := by
  refine ⟨fun v => rfl, ?_, ?_⟩
  · intro v out h
    have h2 : some (JVal.s (jsonDumpsStr (pyStr v))) = some (JVal.s out) :=
      (rfl : GCJSONEncodeFn.call [v] = _).symm.trans h
    cases h2
    exact newline_not_mem_jsonDumpsStr _
  · rfl

/-- C6 witness: encoding the string "a" yields its quoted JSON form, and
no newline occurs in it. -/
theorem C6_witness : '\n' ∉ ("\"a\"" : String).data :=
  C6_cjson_encode_stringify_then_encode.2.1 (JVal.s "a") "\"a\"" rfl

/-- C7: "string.find" returns the 0-based index of the first occurrence
of the needle in the haystack (first = no occurrence at any smaller
index), optionally starting the search at a given offset when a third
argument is present, and the `None` sentinel when the needle does not
occur; in particular finding "world" in "hello world" gives 6 and finding
"z" in "abc" gives the sentinel. -/
theorem C7_string_find_first_occurrence :
    (∀ h n : String, GStringFindFn.call [.s h, .s n]
        = some (match pyFind h.data n.data 0 with
            | some k => JVal.i (k : Int)
            | none => JVal.null)) ∧
    (∀ (h n : List Char) (k : Nat), pyFind h n 0 = some k →
      (n <+: h.drop k) ∧ ∀ j, j < k → ¬ n <+: h.drop j) ∧
    (∀ h n : List Char, pyFind h n 0 = none →
      ∀ j, j ≤ h.length → ¬ n <+: h.drop j) ∧
    (∀ (h n : List Char) (st k : Nat), pyFind h n (st : Int) = some k →
      st ≤ k ∧ (n <+: h.drop k) ∧
        ∀ j, st ≤ j → j < k → ¬ n <+: h.drop j) ∧
    GStringFindFn.call [.s "hello world", .s "world"] = some (.i 6) ∧
    GStringFindFn.call [.s "abc", .s "z"] = some .null := by
  refine ⟨fun h n => rfl, ?_, ?_, ?_, rfl, rfl⟩
  · intro h n k hk
    obtain ⟨-, hp, hmin⟩ := pyFind_start_spec h n 0 k (by simpa using hk)
    exact ⟨hp, fun j hj => hmin j (Nat.zero_le j) hj⟩
  · intro h n hk
    exact pyFind_none_spec h n hk
  · intro h n st k hk
    exact pyFind_start_spec h n st k hk

/-- C7 witness: the match at index 6 in "hello world" is an occurrence
and no earlier index is. -/
theorem C7_witness :
    ("world".data <+: "hello world".data.drop 6) ∧
      ∀ j, j < 6 → ¬ "world".data <+: "hello world".data.drop j :=
  C7_string_find_first_occurrence.2.1 "hello world".data "world".data 6 rfl

/-- C8: "tonumber" first attempts an integer parse of its single
argument; only on failure does it attempt a floating-point parse, and it
fails when both fail; in particular "42" parses to the integer 42, "3.14"
to the floating-point value 3.14 (modelled exactly as 157/50), and "x"
fails. -/
theorem C8_tonumber_int_then_float :
    (∀ t n, pyIntOfString t = some n →
      GToNumberFn.call [.s t] = some (.i n)) ∧
    (∀ t, pyIntOfString t = none →
      GToNumberFn.call [.s t] = (pyFloatOfString t).map JVal.f) ∧
    GToNumberFn.call [.s "42"] = some (.i 42) ∧
    GToNumberFn.call [.s "3.14"] = some (.f (157 / 50 : Rat)) ∧
    GToNumberFn.call [.s "x"] = none := by
  refine ⟨?_, ?_, rfl, ?_, rfl⟩
  · intro t n h
    simp [GToNumberFn.call, pyInt, h]
  · intro t h
    simp [GToNumberFn.call, pyInt, pyFloat, h]
  · have hv : GToNumberFn.call [.s "3.14"]
        = some (.f ((1 : Rat) * (((3 : Nat) : Rat)
            + ((14 : Nat) : Rat) / (10 : Rat) ^ (2 : Nat)))) := rfl
    rw [hv]
    exact congrArg (fun q => some (JVal.f q)) (by push_cast; norm_num)

/-- C8 witness: "42" parses as an integer, so the integer branch is
taken. -/
theorem C8_witness : GToNumberFn.call [.s "42"] = some (.i 42) :=
  C8_tonumber_int_then_float.1 "42" 42 rfl

/-- C10: a failed duplicate declaration leaves the scope state completely
unchanged (no registration, no name-set entry, no appended declare
statement), and a later declaration behaves exactly as it would have
without the failed call. -/
theorem C10_failed_declaration_no_effect :
    (∀ c name, name ∈ c.anames →
      (FnContext.add_arg c name).1 = c ∧
      (FnContext.add_arg c name).2
        = .error (.valueError ("ambiguous arg name: " ++ name))) ∧
    (∀ c name, name ∈ c.knames →
      (FnContext.add_key c name).1 = c ∧
      (FnContext.add_key c name).2
        = .error (.valueError ("ambiguous key name: " ++ name))) ∧
    (∀ c name name2, name ∈ c.anames →
      FnContext.add_arg (FnContext.add_arg c name).1 name2
        = FnContext.add_arg c name2) ∧
    (∀ c name name2, name ∈ c.knames →
      FnContext.add_key (FnContext.add_key c name).1 name2
        = FnContext.add_key c name2) := by
  refine ⟨?_, ?_, ?_, ?_⟩
  · intro c name hmem
    simp [FnContext.add_arg, hmem]
  · intro c name hmem
    simp [FnContext.add_key, hmem]
  · intro c name name2 hmem
    have h1 : (FnContext.add_arg c name).1 = c := by
      simp [FnContext.add_arg, hmem]
    rw [h1]
  · intro c name name2 hmem
    have h1 : (FnContext.add_key c name).1 = c := by
      simp [FnContext.add_key, hmem]
    rw [h1]

/-- C3: each call to `for_`, `if_` or `while_` appends exactly one control
node to the calling sequence at call time (the node is in the sequence
right after the call, with fresh empty child sequences), returning the
child sequence id(s) and, for `for_`, both loop variables; any statements
added to any returned child sequence after the call (arbitrary terms, for
`if_` both the success and the failure child) are present in the parent's
compiled output: the control node at the call position carries the child
bodies compiled from exactly the added entries, one node per entry in
insertion order, with bare expressions as their "stmt" nodes. -/
theorem C3_control_flow_factories :
    ∀ (c : Ctx) (sid : Nat), sid < c.seqs.length →
    ∀ (array condition : ExprObj) (f : Nat),
    ((Sequence.for_ c sid array).1.seqs.get? sid
        = some (c.seqs.getD sid []
            ++ [Item.forLoop array c.loops c.seqs.length]) ∧
      (Sequence.for_ c sid array).2.1 = c.seqs.length ∧
      (Sequence.for_ c sid array).1.seqs.get? c.seqs.length = some [] ∧
      (Sequence.for_ c sid array).2.2.1 = (⟨c.loops⟩ : IndexVariable) ∧
      (Sequence.for_ c sid array).2.2.2 = (⟨c.loops⟩ : ValueVariable)) ∧
    ((Sequence.if_ c sid condition).1.seqs.get? sid
        = some (c.seqs.getD sid []
            ++ [Item.branch condition c.seqs.length (c.seqs.length + 1)]) ∧
      (Sequence.if_ c sid condition).2
        = (c.seqs.length, c.seqs.length + 1) ∧
      (Sequence.if_ c sid condition).1.seqs.get? c.seqs.length = some [] ∧
      (Sequence.if_ c sid condition).1.seqs.get? (c.seqs.length + 1)
        = some []) ∧
    ((Sequence.while_ c sid condition).1.seqs.get? sid
        = some (c.seqs.getD sid []
            ++ [Item.whileLoop condition c.seqs.length]) ∧
      (Sequence.while_ c sid condition).2 = c.seqs.length ∧
      (Sequence.while_ c sid condition).1.seqs.get? c.seqs.length
        = some []) ∧
    (∀ (ts : List Term) (cmds : List CommandObj),
      Sequence.get_cmds
          (addAll (Sequence.for_ c sid array).1
            (Sequence.for_ c sid array).2.1 ts) (f + 1) sid
        = some cmds →
      ∃ body,
        compileSeqList
            (addAll (Sequence.for_ c sid array).1
              (Sequence.for_ c sid array).2.1 ts) f
            (ts.map Term.toItem) = some body ∧
        cmds.get? (c.seqs.getD sid []).length
          = some (CommandObj.forC array
              (ExprObj.indexRef ("ix_" ++ toString c.loops))
              (ExprObj.varRef ("val_" ++ toString c.loops))
              (SequenceObj.seq body)) ∧
        body.length = ts.length ∧
        ∀ k e, ts.get? k = some (Term.expr e) →
          body.get? k = some (CommandObj.stmt e)) ∧
    (∀ (ts1 ts2 : List Term) (cmds : List CommandObj),
      Sequence.get_cmds
          (addAll (addAll (Sequence.if_ c sid condition).1
              (Sequence.if_ c sid condition).2.1 ts1)
            (Sequence.if_ c sid condition).2.2 ts2) (f + 1) sid
        = some cmds →
      ∃ cs ct,
        compileSeqList
            (addAll (addAll (Sequence.if_ c sid condition).1
                (Sequence.if_ c sid condition).2.1 ts1)
              (Sequence.if_ c sid condition).2.2 ts2) f
            (ts1.map Term.toItem) = some cs ∧
        compileSeqList
            (addAll (addAll (Sequence.if_ c sid condition).1
                (Sequence.if_ c sid condition).2.1 ts1)
              (Sequence.if_ c sid condition).2.2 ts2) f
            (ts2.map Term.toItem) = some ct ∧
        cmds.get? (c.seqs.getD sid []).length
          = some (CommandObj.branch condition (SequenceObj.seq cs)
              (SequenceObj.seq ct)) ∧
        cs.length = ts1.length ∧ ct.length = ts2.length ∧
        (∀ k e, ts1.get? k = some (Term.expr e) →
          cs.get? k = some (CommandObj.stmt e)) ∧
        (∀ k e, ts2.get? k = some (Term.expr e) →
          ct.get? k = some (CommandObj.stmt e))) ∧
    (∀ (ts : List Term) (cmds : List CommandObj),
      Sequence.get_cmds
          (addAll (Sequence.while_ c sid condition).1
            (Sequence.while_ c sid condition).2 ts) (f + 1) sid
        = some cmds →
      ∃ body,
        compileSeqList
            (addAll (Sequence.while_ c sid condition).1
              (Sequence.while_ c sid condition).2 ts) f
            (ts.map Term.toItem) = some body ∧
        cmds.get? (c.seqs.getD sid []).length
          = some (CommandObj.whileC condition (SequenceObj.seq body)) ∧
        body.length = ts.length ∧
        ∀ k e, ts.get? k = some (Term.expr e) →
          body.get? k = some (CommandObj.stmt e)) := by
  intro c sid hs array condition f
  have hlt1 : sid < (c.seqs ++ [[]]).length := by
    simp only [List.length_append]
    omega
  have hlt2 : sid < (c.seqs ++ [[], []]).length := by
    simp only [List.length_append]
    omega
  have hgD1 : (c.seqs ++ [[]]).getD sid [] = c.seqs.getD sid [] :=
    getD_of_get?_eq ((List.get?_append hs).trans (get?_of_lt hs))
  have hgD2 : (c.seqs ++ [[], []]).getD sid [] = c.seqs.getD sid [] :=
    getD_of_get?_eq ((List.get?_append hs).trans (get?_of_lt hs))
  have hne : sid ≠ c.seqs.length := by omega
  have hne2 : sid ≠ c.seqs.length + 1 := by omega
  refine ⟨⟨?_, rfl, ?_, rfl, rfl⟩, ⟨?_, rfl, ?_, ?_⟩, ⟨?_, rfl, ?_⟩,
    ?_, ?_, ?_⟩
  · show (appendAt (c.seqs ++ [[]]) sid
        (.forLoop array c.loops c.seqs.length)).get? sid = _
    rw [get?_appendAt_self _ _ _ hlt1, hgD1]
  · show (appendAt (c.seqs ++ [[]]) sid
        (.forLoop array c.loops c.seqs.length)).get? c.seqs.length = _
    rw [get?_appendAt_ne _ _ _ _ hne.symm, List.get?_concat_length]
  · show (appendAt (c.seqs ++ [[], []]) sid
        (.branch condition c.seqs.length (c.seqs.length + 1))).get? sid = _
    rw [get?_appendAt_self _ _ _ hlt2, hgD2]
  · show (appendAt (c.seqs ++ [[], []]) sid
        (.branch condition c.seqs.length (c.seqs.length + 1))).get?
        c.seqs.length = _
    rw [get?_appendAt_ne _ _ _ _ hne.symm,
      List.get?_append_right (Nat.le_refl _)]
    simp
  · show (appendAt (c.seqs ++ [[], []]) sid
        (.branch condition c.seqs.length (c.seqs.length + 1))).get?
        (c.seqs.length + 1) = _
    rw [get?_appendAt_ne _ _ _ _ hne2.symm,
      List.get?_append_right (by omega)]
    simp
  · show (appendAt (c.seqs ++ [[]]) sid
        (.whileLoop condition c.seqs.length)).get? sid = _
    rw [get?_appendAt_self _ _ _ hlt1, hgD1]
  · show (appendAt (c.seqs ++ [[]]) sid
        (.whileLoop condition c.seqs.length)).get? c.seqs.length = _
    rw [get?_appendAt_ne _ _ _ _ hne.symm, List.get?_concat_length]
  · intro ts cmds hcmds
    have hfor : (Sequence.for_ c sid array).2.1 = c.seqs.length := rfl
    rw [hfor] at hcmds ⊢
    set c1 := (Sequence.for_ c sid array).1 with hc1
    set c2 := addAll c1 c.seqs.length ts with hc2
    have hpar1 : c1.seqs.get? sid
        = some (c.seqs.getD sid []
            ++ [Item.forLoop array c.loops c.seqs.length]) := by
      rw [hc1]
      show (appendAt (c.seqs ++ [[]]) sid
          (.forLoop array c.loops c.seqs.length)).get? sid = _
      rw [get?_appendAt_self _ _ _ hlt1, hgD1]
    have hbody1 : c1.seqs.get? c.seqs.length = some [] := by
      rw [hc1]
      show (appendAt (c.seqs ++ [[]]) sid
          (.forLoop array c.loops c.seqs.length)).get? c.seqs.length = _
      rw [get?_appendAt_ne _ _ _ _ hne.symm, List.get?_concat_length]
    have hlen1 : c.seqs.length < c1.seqs.length := by
      rw [hc1]
      show c.seqs.length < (appendAt (c.seqs ++ [[]]) sid
          (.forLoop array c.loops c.seqs.length)).length
      rw [appendAt_length]
      simp
    have hpar2 : c2.seqs.get? sid = some (c.seqs.getD sid []
        ++ [Item.forLoop array c.loops c.seqs.length]) := by
      rw [hc2, addAll_get?_ne _ _ _ _ hne]
      exact hpar1
    have hbody2 : c2.seqs.get? c.seqs.length
        = some (ts.map Term.toItem) := by
      rw [hc2, addAll_get?_self _ _ _ hlen1, getD_of_get?_eq hbody1]
      simp
    simp only [Sequence.get_cmds, hpar2] at hcmds
    have hat : (c.seqs.getD sid []
        ++ [Item.forLoop array c.loops c.seqs.length]).get?
        (c.seqs.getD sid []).length
        = some (Item.forLoop array c.loops c.seqs.length) :=
      List.get?_concat_length _ _
    obtain ⟨cmd, hcomp, hcm⟩ := compileSeqList_get? hcmds _ _ hat
    obtain ⟨body, hbodyc, rfl⟩ := compileItem_forLoop_inv hcomp hbody2
    obtain ⟨hlenb, hpt⟩ := compiled_terms_facts hbodyc
    exact ⟨body, hbodyc, hcm, hlenb, hpt⟩
  · intro ts1 ts2 cmds hcmds
    have hif1 : (Sequence.if_ c sid condition).2.1 = c.seqs.length := rfl
    have hif2 : (Sequence.if_ c sid condition).2.2
        = c.seqs.length + 1 := rfl
    rw [hif1, hif2] at hcmds ⊢
    set c1 := (Sequence.if_ c sid condition).1 with hc1
    set c2 := addAll c1 c.seqs.length ts1 with hc2
    set c3 := addAll c2 (c.seqs.length + 1) ts2 with hc3
    have hpar1 : c1.seqs.get? sid
        = some (c.seqs.getD sid []
            ++ [Item.branch condition c.seqs.length
                (c.seqs.length + 1)]) := by
      rw [hc1]
      show (appendAt (c.seqs ++ [[], []]) sid
          (.branch condition c.seqs.length (c.seqs.length + 1))).get?
          sid = _
      rw [get?_appendAt_self _ _ _ hlt2, hgD2]
    have hsucc1 : c1.seqs.get? c.seqs.length = some [] := by
      rw [hc1]
      show (appendAt (c.seqs ++ [[], []]) sid
          (.branch condition c.seqs.length (c.seqs.length + 1))).get?
          c.seqs.length = _
      rw [get?_appendAt_ne _ _ _ _ hne.symm,
        List.get?_append_right (Nat.le_refl _)]
      simp
    have hfail1 : c1.seqs.get? (c.seqs.length + 1) = some [] := by
      rw [hc1]
      show (appendAt (c.seqs ++ [[], []]) sid
          (.branch condition c.seqs.length (c.seqs.length + 1))).get?
          (c.seqs.length + 1) = _
      rw [get?_appendAt_ne _ _ _ _ hne2.symm,
        List.get?_append_right (by omega)]
      simp
    have hlen1 : c.seqs.length < c1.seqs.length := by
      rw [hc1]
      show c.seqs.length < (appendAt (c.seqs ++ [[], []]) sid
          (.branch condition c.seqs.length (c.seqs.length + 1))).length
      rw [appendAt_length]
      simp only [List.length_append, List.length_cons, List.length_nil]
      omega
    have hlen2 : c.seqs.length + 1 < c1.seqs.length := by
      rw [hc1]
      show c.seqs.length + 1 < (appendAt (c.seqs ++ [[], []]) sid
          (.branch condition c.seqs.length (c.seqs.length + 1))).length
      rw [appendAt_length]
      simp only [List.length_append, List.length_cons, List.length_nil]
      omega
    have hsucc2 : c2.seqs.get? c.seqs.length
        = some (ts1.map Term.toItem) := by
      rw [hc2, addAll_get?_self _ _ _ hlen1, getD_of_get?_eq hsucc1]
      simp
    have hfail2 : c2.seqs.get? (c.seqs.length + 1) = some [] := by
      rw [hc2, addAll_get?_ne _ _ _ _ (by omega)]
      exact hfail1
    have hpar2 : c2.seqs.get? sid
        = some (c.seqs.getD sid []
            ++ [Item.branch condition c.seqs.length
                (c.seqs.length + 1)]) := by
      rw [hc2, addAll_get?_ne _ _ _ _ hne]
      exact hpar1
    have hlen3 : c.seqs.length + 1 < c2.seqs.length := by
      rw [hc2, addAll_seqs_length]
      exact hlen2
    have hsucc3 : c3.seqs.get? c.seqs.length
        = some (ts1.map Term.toItem) := by
      rw [hc3, addAll_get?_ne _ _ _ _ (by omega)]
      exact hsucc2
    have hfail3 : c3.seqs.get? (c.seqs.length + 1)
        = some (ts2.map Term.toItem) := by
      rw [hc3, addAll_get?_self _ _ _ hlen3, getD_of_get?_eq hfail2]
      simp
    have hpar3 : c3.seqs.get? sid
        = some (c.seqs.getD sid []
            ++ [Item.branch condition c.seqs.length
                (c.seqs.length + 1)]) := by
      rw [hc3, addAll_get?_ne _ _ _ _ hne2]
      exact hpar2
    simp only [Sequence.get_cmds, hpar3] at hcmds
    have hat : (c.seqs.getD sid []
        ++ [Item.branch condition c.seqs.length (c.seqs.length + 1)]).get?
        (c.seqs.getD sid []).length
        = some (Item.branch condition c.seqs.length (c.seqs.length + 1)) :=
      List.get?_concat_length _ _
    obtain ⟨cmd, hcomp, hcm⟩ := compileSeqList_get? hcmds _ _ hat
    obtain ⟨cs, ct, hcs, hct, rfl⟩ :=
      compileItem_branch_inv hcomp hsucc3 hfail3
    obtain ⟨hl1, hp1⟩ := compiled_terms_facts hcs
    obtain ⟨hl2, hp2⟩ := compiled_terms_facts hct
    exact ⟨cs, ct, hcs, hct, hcm, hl1, hl2, hp1, hp2⟩
  · intro ts cmds hcmds
    have hwh : (Sequence.while_ c sid condition).2 = c.seqs.length := rfl
    rw [hwh] at hcmds ⊢
    set c1 := (Sequence.while_ c sid condition).1 with hc1
    set c2 := addAll c1 c.seqs.length ts with hc2
    have hpar1 : c1.seqs.get? sid
        = some (c.seqs.getD sid []
            ++ [Item.whileLoop condition c.seqs.length]) := by
      rw [hc1]
      show (appendAt (c.seqs ++ [[]]) sid
          (.whileLoop condition c.seqs.length)).get? sid = _
      rw [get?_appendAt_self _ _ _ hlt1, hgD1]
    have hbody1 : c1.seqs.get? c.seqs.length = some [] := by
      rw [hc1]
      show (appendAt (c.seqs ++ [[]]) sid
          (.whileLoop condition c.seqs.length)).get? c.seqs.length = _
      rw [get?_appendAt_ne _ _ _ _ hne.symm, List.get?_concat_length]
    have hlen1 : c.seqs.length < c1.seqs.length := by
      rw [hc1]
      show c.seqs.length < (appendAt (c.seqs ++ [[]]) sid
          (.whileLoop condition c.seqs.length)).length
      rw [appendAt_length]
      simp
    have hpar2 : c2.seqs.get? sid = some (c.seqs.getD sid []
        ++ [Item.whileLoop condition c.seqs.length]) := by
      rw [hc2, addAll_get?_ne _ _ _ _ hne]
      exact hpar1
    have hbody2 : c2.seqs.get? c.seqs.length
        = some (ts.map Term.toItem) := by
      rw [hc2, addAll_get?_self _ _ _ hlen1, getD_of_get?_eq hbody1]
      simp
    simp only [Sequence.get_cmds, hpar2] at hcmds
    have hat : (c.seqs.getD sid []
        ++ [Item.whileLoop condition c.seqs.length]).get?
        (c.seqs.getD sid []).length
        = some (Item.whileLoop condition c.seqs.length) :=
      List.get?_concat_length _ _
    obtain ⟨cmd, hcomp, hcm⟩ := compileSeqList_get? hcmds _ _ hat
    obtain ⟨body, hbodyc, rfl⟩ := compileItem_whileLoop_inv hcomp hbody2
    obtain ⟨hlenb, hpt⟩ := compiled_terms_facts hbodyc
    exact ⟨body, hbodyc, hcm, hlenb, hpt⟩

/-- C3 witness: on a fresh scope, a for loop plus one statement added to
its returned body afterwards compiles to a single "for" node containing
that statement. -/
theorem C3_witness :
    ([CommandObj.forC (.ext 0) (.indexRef "ix_0") (.varRef "val_0")
        (.seq [.stmt (.ext 2)])] : List CommandObj).get? 0
      = some (CommandObj.forC (.ext 0) (.indexRef "ix_0") (.varRef "val_0")
          (.seq [.stmt (.ext 2)])) := by
  have happ := (C3_control_flow_factories freshCtx 0 (by decide)
    (.ext 0) (.ext 1) 0).2.2.2.1 [Term.expr (.ext 2)]
    [CommandObj.forC (.ext 0) (.indexRef "ix_0") (.varRef "val_0")
      (.seq [.stmt (.ext 2)])]
    (by
      simp [Sequence.get_cmds, addAll, Sequence.add, Sequence.for_,
        appendItem, appendAt, freshCtx, compileSeqList, compileItem,
        IndexVariable.get_index_ref, ValueVariable.get_var_ref]
      decide)
  obtain ⟨body, hb, hpos, hlen, hpt⟩ := happ
  have hbval : compileSeqList
      (addAll (Sequence.for_ freshCtx 0 (.ext 0)).1
        (Sequence.for_ freshCtx 0 (.ext 0)).2.1 [Term.expr (.ext 2)]) 0
      ([Term.expr (.ext 2)].map Term.toItem)
      = some [CommandObj.stmt (.ext 2)] := by
    simpa [Term.toItem] using compileSeqList_map_stmt
      (addAll (Sequence.for_ freshCtx 0 (.ext 0)).1
        (Sequence.for_ freshCtx 0 (.ext 0)).2.1 [Term.expr (.ext 2)]) 0
      [ExprObj.ext 2]
  rw [hb] at hbval
  injection hbval with hbeq
  subst hbeq
  have hs1 : "ix_" ++ toString freshCtx.loops = "ix_0" := by decide
  have hs2 : "val_" ++ toString freshCtx.loops = "val_0" := by decide
  rw [hs1, hs2] at hpos
  simpa [freshCtx] using hpos

/-- C4: loop ids in one script scope are allocated monotonically starting
at 0 in construction order, so any two `ForLoop`s of the scope — siblings
or nested, with arbitrary building activity in between — get distinct ids,
and within one `ForLoop` the index and value variables share the single
allocated id, distinguished only by the "ix"/"val" role marker in their
compiled references. -/
theorem C4_loop_ids_distinct_shared :
    ∀ (ops0 ops1 : List Op) (sid1 sid2 : Nat) (a1 a2 : ExprObj),
    (run freshCtx ops0).loops = countFor ops0 ∧
    (Sequence.for_ (run freshCtx ops0) sid1 a1).2.2.1.index
      = countFor ops0 ∧
    (Sequence.for_ (run freshCtx ops0) sid1 a1).2.2.2.index
      = countFor ops0 ∧
    (Sequence.for_
        (run (Sequence.for_ (run freshCtx ops0) sid1 a1).1 ops1)
        sid2 a2).2.2.1.index
      = countFor ops0 + 1 + countFor ops1 ∧
    (Sequence.for_ (run freshCtx ops0) sid1 a1).2.2.1.index
      < (Sequence.for_
          (run (Sequence.for_ (run freshCtx ops0) sid1 a1).1 ops1)
          sid2 a2).2.2.1.index ∧
    (∀ v : Nat,
      IndexVariable.get_index_ref ⟨v⟩
        = ExprObj.indexRef ("ix_" ++ toString v) ∧
      ValueVariable.get_var_ref ⟨v⟩
        = ExprObj.varRef ("val_" ++ toString v)) := by
  intro ops0 ops1 sid1 sid2 a1 a2
  have h0 : (run freshCtx ops0).loops = countFor ops0 := by
    rw [run_loops]
    simp [freshCtx]
  have hvar : ∀ (c : Ctx) (sid : Nat) (a : ExprObj),
      (Sequence.for_ c sid a).2.2.1.index = c.loops ∧
      (Sequence.for_ c sid a).2.2.2.index = c.loops := by
    intro c sid a
    exact ⟨rfl, rfl⟩
  have hloops1 : (Sequence.for_ (run freshCtx ops0) sid1 a1).1.loops
      = countFor ops0 + 1 := by
    show (run freshCtx ops0).loops + 1 = _
    rw [h0]
  have h2 : (run (Sequence.for_ (run freshCtx ops0) sid1 a1).1 ops1).loops
      = countFor ops0 + 1 + countFor ops1 := by
    rw [run_loops, hloops1]
  refine ⟨h0, ?_, ?_, ?_, ?_, ?_⟩
  · rw [(hvar _ _ _).1, h0]
  · rw [(hvar _ _ _).2, h0]
  · rw [(hvar _ _ _).1, h2]
  · rw [(hvar _ _ _).1, h0, (hvar _ _ _).1, h2]
    omega
  · intro v
    exact ⟨rfl, rfl⟩

/-- C10 witness: re-declaring argument "x" on a scope that already has it
leaves the scope exactly as it was. -/
theorem C10_witness :
    (FnContext.add_arg (FnContext.add_arg freshCtx "x").1 "x").1
      = (FnContext.add_arg freshCtx "x").1 :=
  (C10_failed_declaration_no_effect.1 (FnContext.add_arg freshCtx "x").1 "x"
    (by simp [FnContext.add_arg, freshCtx, appendItem])).1

end Redist
